import Mathlib

/-!
Verification of the `slicedisplay` library: a configurable `Display`
implementation for slices.

The embedding models the `multichar` variant of the crate, where the chrome
literal type is a string (the single-`char` variant is the special case of
singleton strings).  Rust strings are modelled as Lean `String`s, a borrowed
slice `&[T]` as a `List`, and the fallible formatter sink
(`core::fmt::Formatter`, whose writes return `core::fmt::Result`) as an
arbitrary state type `σ` together with write functions returning
`Except ε σ`.  Element rendering (`T: Display`) is a function from the
element into the sink.
-/

/-- The chrome literal type: `type ChromeLiteral = &'static str;` (the
`multichar` variant). -/
abbrev ChromeLiteral : Type := String

/-- The struct `SliceDisplayImpl<'a, T: Display>`: a borrowed slice together
with its chrome configuration (terminators, delimiter, spacing flag). -/
structure SliceDisplayImpl (α : Type _) where
  slice : List α
  terminators : String × String
  delimiter : String
  should_space : Bool

/-- Method `SliceDisplayImpl::terminator`: configures the terminators used for the
display, replacing both at once. -/
def SliceDisplayImpl.terminator (self : SliceDisplayImpl α)
    (beginning ending : String) : SliceDisplayImpl α :=
  { self with terminators := (beginning, ending) }

/-- Method `SliceDisplayImpl::delimiter`: configures the delimiter used for the
display.  (Named `set_delimiter` here because `delimiter` is already the
field's projection.) -/
def SliceDisplayImpl.set_delimiter (self : SliceDisplayImpl α)
    (delimiter : String) : SliceDisplayImpl α :=
  { self with delimiter := delimiter }

/-- Method `SliceDisplayImpl::should_space`: sets whether additional spacing is
added between elements.  (Named `set_should_space` here because
`should_space` is the field's projection.) -/
def SliceDisplayImpl.set_should_space (self : SliceDisplayImpl α)
    (should_space : Bool) : SliceDisplayImpl α :=
  { self with should_space := should_space }

/-- The blanket impl `impl<T, A: AsRef<[T]>> SliceDisplay for A` relies on
`AsRef<[T]>`:
anything that can be viewed as a slice. -/
class AsRefSlice (A : Type _) (α : outParam (Type _)) where
  as_ref : A → List α

/-- The trait `SliceDisplay`: `fn display(&self) -> SliceDisplayImpl<T>`. -/
class SliceDisplay (A : Type _) (α : outParam (Type _)) where
  display : A → SliceDisplayImpl α

/-- Method-call sugar: `x.display()` for anything implementing the trait. -/
def display [SliceDisplay A α] (a : A) : SliceDisplayImpl α :=
  SliceDisplay.display a

/-- The blanket impl `impl<T: Display, A: AsRef<[T]>> SliceDisplay for A`:
the handle borrows `self.as_ref()` and carries the default chrome
`("[", "]")`, `","`, `should_space = true`. -/
instance instSliceDisplayOfAsRef [AsRefSlice A α] : SliceDisplay A α where
  display a :=
    { slice := AsRefSlice.as_ref a
      terminators := ("[", "]")
      delimiter := ","
      should_space := true }

/-- An owned `Vec<T>` (`impl<T> AsRef<[T]> for Vec<T>` views its buffer). -/
structure Vec (α : Type _) where
  data : List α

instance : AsRefSlice (Vec α) α := ⟨Vec.data⟩

/-- A borrowed slice `&[T]` is itself the sequence view. -/
instance : AsRefSlice (List α) α := ⟨id⟩

/-- A fixed-size array `[T; N]` (`impl AsRef<[T]> for [T; N]`). -/
structure ArrayN (α : Type _) (n : Nat) where
  data : List α
  len_eq : data.length = n

instance : AsRefSlice (ArrayN α n) α := ⟨ArrayN.data⟩

/-- Rust's `slice::split_last`: `Some((last, init))` for a nonempty slice, `None`
for the empty one. -/
def splitLast : List α → Option (α × List α)
  | [] => none
  | [a] => some (a, [])
  | a :: b :: rest =>
    match splitLast (b :: rest) with
    | some (last, elems) => some (last, a :: elems)
    | none => none

/-- The loop `for elem in elems { write!(f, "{elem}{delimiter}{spacing}")?; }`
of the `Display` impl: renders each element into the sink, then writes the
delimiter and the spacing, short-circuiting on the first failure. -/
def writeElems (render : α → σ → Except ε σ) (write : String → σ → Except ε σ)
    (delimiter spacing : String) : List α → σ → Except ε σ
  | [], s => Except.ok s
  | e :: rest, s => do
    let s ← render e s
    let s ← write delimiter s
    let s ← write spacing s
    writeElems render write delimiter spacing rest s

/-- The impl `Display for SliceDisplayImpl<'a, T>`, `fn fmt`:
writes the opening terminator, then (if the slice is nonempty, split as
`(last, elems)` by `split_last`) every element of `elems` followed by
delimiter and spacing, then `last`, then the closing terminator.  Every
write goes through the fallible sink and `?` propagates the first error. -/
def SliceDisplayImpl.fmt (self : SliceDisplayImpl α)
    (render : α → σ → Except ε σ) (write : String → σ → Except ε σ)
    (s : σ) : Except ε σ := do
  let (beginning, ending) := self.terminators
  let delimiter := self.delimiter
  let spacing := if self.should_space then " " else ""
  let s ← write beginning s
  let s ←
    match splitLast self.slice with
    | some (last, elems) => do
      let s ← writeElems render write delimiter spacing elems s
      render last s
    | none => pure s
  write ending s

/-- A sink that appends to a `String` and never fails, as used by
`ToString::to_string`; element rendering appends the element's own text. -/
def pureWrite : String → String → Except Empty String :=
  fun t s => Except.ok (s ++ t)

/-- Rendering the handle to a `String` (Rust's `to_string`), where each
element `a` renders as the text `toStr a`. -/
def output (toStr : α → String) (d : SliceDisplayImpl α) : String :=
  match d.fmt (fun a s => pureWrite (toStr a) s) pureWrite "" with
  | Except.ok s => s
  | Except.error e => e.elim

/-- The sequence of strings `fmt` hands to the sink, in order, when each
element `a` renders as the single write of `toStr a`. -/
def tokens (toStr : α → String) (d : SliceDisplayImpl α) : List String :=
  let spacing := if d.should_space then " " else ""
  d.terminators.1 ::
    ((match splitLast d.slice with
      | some (last, elems) =>
        (elems.map fun e => [toStr e, d.delimiter, spacing]).flatten ++ [toStr last]
      | none => []) ++ [d.terminators.2])

/-- Run a list of writes against a fallible sink, short-circuiting at the
first failure. -/
def runWrites (write : String → σ → Except ε σ) : List String → σ → Except ε σ
  | [], s => Except.ok s
  | t :: ts, s => do
    let s ← write t s
    runWrites write ts s

/-- Concatenation of a list of strings. -/
def joinStr : List String → String
  | [] => ""
  | t :: ts => t ++ joinStr ts

/-- Function `sepBy sep ts` interleaves `sep` between consecutive entries of `ts`, the
`body` production of the output grammar in the spec (§4.3). -/
def sepBy (sep : String) : List String → String
  | [] => ""
  | [t] => t
  | t :: u :: rest => t ++ sep ++ sepBy sep (u :: rest)

theorem runWrites_append (write : String → σ → Except ε σ) (ts us : List String)
    (s : σ) :
    runWrites write (ts ++ us) s = (runWrites write ts s).bind (runWrites write us) := by
  induction ts generalizing s with
  | nil => simp [runWrites, Except.bind]
  | cons t ts ih =>
    simp only [List.cons_append, runWrites, bind, Except.bind]
    cases write t s with
    | ok s => exact ih s
    | error e => rfl

theorem runWrites_singleton (write : String → σ → Except ε σ) (t : String) (s : σ) :
    runWrites write [t] s = write t s := by
  cases h : write t s <;> simp [runWrites, bind, Except.bind, h]

theorem writeElems_eq_runWrites (toStr : α → String)
    (write : String → σ → Except ε σ) (dl sp : String) (l : List α) (s : σ) :
    writeElems (fun a s => write (toStr a) s) write dl sp l s
      = runWrites write ((l.map fun e => [toStr e, dl, sp]).flatten) s := by
  induction l generalizing s with
  | nil => rfl
  | cons e l ih =>
    cases h1 : write (toStr e) s with
    | error err => simp [writeElems, runWrites, bind, Except.bind, h1]
    | ok s1 =>
      cases h2 : write dl s1 with
      | error err => simp [writeElems, runWrites, bind, Except.bind, h1, h2]
      | ok s2 =>
        cases h3 : write sp s2 with
        | error err => simp [writeElems, runWrites, bind, Except.bind, h1, h2, h3]
        | ok s3 => simp [writeElems, runWrites, bind, Except.bind, h1, h2, h3, ih]

/-- Running `fmt` is the run of its token list against the sink, for any sink. -/
theorem fmt_eq_runWrites (toStr : α → String) (d : SliceDisplayImpl α)
    (write : String → σ → Except ε σ) (s : σ) :
    d.fmt (fun a s => write (toStr a) s) write s = runWrites write (tokens toStr d) s := by
  cases h0 : write d.terminators.1 s with
  | error err =>
    simp [SliceDisplayImpl.fmt, tokens, runWrites, bind, Except.bind, h0]
  | ok s0 =>
    cases hsl : splitLast d.slice with
    | none =>
      simp [SliceDisplayImpl.fmt, tokens, runWrites, runWrites_singleton, bind,
        Except.bind, pure, Except.pure, h0, hsl]
    | some p =>
      obtain ⟨last, elems⟩ := p
      cases hre : runWrites write ((elems.map fun e => [toStr e, d.delimiter,
          if d.should_space then " " else ""]).flatten) s0 with
      | error err =>
        simp [SliceDisplayImpl.fmt, tokens, runWrites, bind, Except.bind, h0, hsl,
          runWrites_append, writeElems_eq_runWrites toStr, hre]
      | ok s1 =>
        cases hla : write (toStr last) s1 with
        | error err =>
          simp [SliceDisplayImpl.fmt, tokens, runWrites, runWrites_singleton, bind,
            Except.bind, h0, hsl, runWrites_append, writeElems_eq_runWrites toStr, hre, hla]
        | ok s2 =>
          simp only [SliceDisplayImpl.fmt, tokens, runWrites, runWrites_singleton, bind,
            Except.bind, h0, hsl, runWrites_append, writeElems_eq_runWrites toStr, hre, hla]
          cases hcl : write d.terminators.2 s2 <;> simp [hcl]

theorem runWrites_pure (ts : List String) (s : String) :
    runWrites pureWrite ts s = Except.ok (s ++ joinStr ts) := by
  induction ts generalizing s with
  | nil => simp [runWrites, joinStr, String.append_empty]
  | cons t ts ih =>
    simp [runWrites, joinStr, bind, Except.bind, pureWrite, ih, String.append_assoc]

theorem output_eq_joinStr (toStr : α → String) (d : SliceDisplayImpl α) :
    output toStr d = joinStr (tokens toStr d) := by
  unfold output
  rw [fmt_eq_runWrites, runWrites_pure, String.empty_append]

theorem joinStr_append (ts us : List String) :
    joinStr (ts ++ us) = joinStr ts ++ joinStr us := by
  induction ts with
  | nil => simp [joinStr, String.empty_append]
  | cons t ts ih => simp [joinStr, ih, String.append_assoc]

theorem joinStr_sepParts (toStr : α → String) (dl sp : String) (l : List α) (a : α) :
    joinStr ((l.map fun e => [toStr e, dl, sp]).flatten) ++ toStr a
      = sepBy (dl ++ sp) (l.map toStr ++ [toStr a]) := by
  induction l with
  | nil => simp [joinStr, sepBy, String.empty_append]
  | cons b l ih =>
    cases l with
    | nil => simp [joinStr, sepBy, String.append_empty, String.append_assoc]
    | cons c l' =>
      have hsep : sepBy (dl ++ sp) ((b :: c :: l').map toStr ++ [toStr a])
          = toStr b ++ (dl ++ sp)
            ++ sepBy (dl ++ sp) ((c :: l').map toStr ++ [toStr a]) := by
        simp [sepBy]
      rw [hsep, ← ih]
      simp only [List.map_cons, List.flatten_cons, List.cons_append, joinStr]
      simp [String.append_assoc]

theorem splitLast_concat (l : List α) (a : α) : splitLast (l ++ [a]) = some (a, l) := by
  induction l with
  | nil => rfl
  | cons b l ih =>
    cases l with
    | nil => rfl
    | cons c l' =>
      simp only [List.cons_append] at ih ⊢
      simp [splitLast, ih]

/-- Closed form of the rendered output: the spec's output grammar
`open · body · close` with `body` the element texts interleaved with
`delim` and `" "` when `should_space` is set. -/
theorem output_closed (toStr : α → String) (d : SliceDisplayImpl α) :
    output toStr d
      = d.terminators.1
        ++ sepBy (d.delimiter ++ if d.should_space then " " else "") (d.slice.map toStr)
        ++ d.terminators.2 := by
  rw [output_eq_joinStr]
  obtain h | ⟨l, a, h⟩ := d.slice.eq_nil_or_concat
  · simp [tokens, h, splitLast, joinStr, sepBy, String.append_empty]
  · rw [List.concat_eq_append] at h
    simp only [tokens, h, splitLast_concat, joinStr_append, joinStr,
      List.map_append, List.map_cons, List.map_nil]
    rw [← joinStr_sepParts toStr]
    simp [joinStr, joinStr_append, String.append_empty, String.append_assoc]

/-- Number of start positions (overlap included) at which `pat` occurs in the
character list. -/
def countOccAux (pat : List Char) : List Char → Nat
  | [] => if pat.isPrefixOf [] then 1 else 0
  | c :: rest => (if pat.isPrefixOf (c :: rest) then 1 else 0) + countOccAux pat rest

/-- Number of occurrences of `pat` as a substring of `s`. -/
def countOccurrences (pat s : String) : Nat :=
  countOccAux pat.data s.data

theorem countOccAux_singleton (ch : Char) (l : List Char) :
    countOccAux [ch] l = l.count ch := by
  induction l with
  | nil => simp [countOccAux, List.isPrefixOf]
  | cons c rest ih =>
    simp [countOccAux, List.isPrefixOf, ih, List.count_cons]
    by_cases h : ch = c
    · simp [h, Nat.add_comm]
    · have h' : ¬c = ch := fun hc => h hc.symm
      simp [h, h']

theorem sepBy_count (ch : Char) (sep : String) (ts : List String)
    (h : ∀ t ∈ ts, t.data.count ch = 0) (hne : ts ≠ []) :
    (sepBy sep ts).data.count ch = (ts.length - 1) * sep.data.count ch := by
  induction ts with
  | nil => exact absurd rfl hne
  | cons t ts ih =>
    cases ts with
    | nil => simp [sepBy, h t (by simp)]
    | cons u ts' =>
      have hrest : ∀ x ∈ u :: ts', x.data.count ch = 0 := by
        intro x hx
        exact h x (List.mem_cons_of_mem t hx)
      have ih' := ih hrest (by simp)
      simp only [sepBy, String.data_append, List.count_append, ih',
        h t (by simp), List.length_cons, Nat.add_sub_cancel]
      ring

/-- A sink that records the output written so far and fails with error value
`e` on the write after `budget` successful writes; the partial output
accompanies the error so that the written prefix stays observable. -/
def failWrite (e : ε) : String → Nat × String → Except (ε × String) (Nat × String) :=
  fun t ks =>
    match ks with
    | (0, out) => Except.error (e, out)
    | (Nat.succ k, out) => Except.ok (k, out ++ t)

/-- Rendering the handle against the failing sink with `budget` allowed
writes; elements render by writing their own text through the same sink. -/
def fmtBudget (toStr : α → String) (d : SliceDisplayImpl α) (e : ε) (budget : Nat) :
    Except (ε × String) (Nat × String) :=
  d.fmt (fun a s => failWrite e (toStr a) s) (failWrite e) (budget, "")

theorem runWrites_failWrite (e : ε) (ts : List String) (k : Nat) (out : String) :
    runWrites (failWrite e) ts (k, out)
      = if k < ts.length then Except.error (e, out ++ joinStr (ts.take k))
        else Except.ok (k - ts.length, out ++ joinStr ts) := by
  induction ts generalizing k out with
  | nil => simp [runWrites, joinStr, String.append_empty]
  | cons t ts ih =>
    cases k with
    | zero =>
      simp [runWrites, failWrite, bind, Except.bind, joinStr, List.take,
        String.append_empty]
    | succ k =>
      simp only [runWrites, failWrite, bind, Except.bind, ih, List.length_cons,
        Nat.succ_lt_succ_iff, Nat.succ_sub_succ, List.take_succ_cons, joinStr]
      by_cases hk : k < ts.length <;> simp [hk, String.append_assoc]

/-- The formatting parameters a `core::fmt::Formatter` carries (fill, align,
width, precision and the `+`/`#` flags). -/
structure FmtOptions where
  fill : Char
  align : Option Bool
  width : Option Nat
  precision : Option Nat
  signPlus : Bool
  alternate : Bool

/-- A formatter sink: formatting parameters plus the text written so far. -/
structure Formatter where
  options : FmtOptions
  out : String

/-- Rust's `Formatter::write_str`: appends the text verbatim, without consulting or
changing the formatting parameters, and does not fail. -/
def Formatter.write_str (t : String) (f : Formatter) : Except Empty Formatter :=
  Except.ok { f with out := f.out ++ t }

/-- The text produced by rendering the handle into a formatter carrying the
formatting parameters `o`. -/
def outputWith (toStr : α → String) (d : SliceDisplayImpl α) (o : FmtOptions) :
    String :=
  match d.fmt (fun a f => Formatter.write_str (toStr a) f) Formatter.write_str
      { options := o, out := "" } with
  | Except.ok f => f.out
  | Except.error e => e.elim

theorem runWrites_formatter (ts : List String) (f : Formatter) :
    runWrites Formatter.write_str ts f
      = Except.ok { options := f.options, out := f.out ++ joinStr ts } := by
  induction ts generalizing f with
  | nil => simp [runWrites, joinStr, String.append_empty]
  | cons t ts ih =>
    simp [runWrites, bind, Except.bind, Formatter.write_str, ih, joinStr,
      String.append_assoc]

/-- C1: for every chrome configuration (terminators, delimiter, spacing
flag) and every slice, the rendered output is exactly the open terminator,
then the element renderings in slice order interleaved with the delimiter
followed by a single space iff `should_space`, then the close terminator;
in particular nothing separates the last element from the close
terminator. -/
theorem render_emits_grammar (toStr : α → String) (slice : List α)
    (op cl dl : String) (sp : Bool) :
    output toStr ⟨slice, (op, cl), dl, sp⟩
      = op ++ sepBy (dl ++ if sp then " " else "") (slice.map toStr) ++ cl :=
  output_closed toStr ⟨slice, (op, cl), dl, sp⟩

/-- C2: for every chrome configuration, rendering the empty slice yields
exactly the open terminator followed by the close terminator, independent
of delimiter and spacing flag; under default chrome this is `"[]"`. -/
theorem empty_output_terminators (toStr : α → String) (op cl dl : String)
    (sp : Bool) :
    output toStr ⟨[], (op, cl), dl, sp⟩ = op ++ cl
      ∧ output Nat.repr (display ([] : List Nat)) = "[]" := by
  constructor
  · rw [output_closed]
    simp [sepBy, String.append_empty]
  · decide

/-- C3 (counterexample): with terminators `("[", "]")`, delimiter `"["` and
no spacing, the slice `["1"]` renders to `"[1]"`; the element rendering
`"1"` contains no occurrence of the delimiter, yet the delimiter occurs in
the output (the claimed count `1 - 1 = 0` is wrong, because the open
terminator also contains it). -/
theorem countOccurrences_claim_counterexample :
    countOccurrences "[" "1" = 0
      ∧ output (fun s => s) ⟨["1"], ("[", "]"), "[", false⟩ = "[1]"
      ∧ countOccurrences "["
          (output (fun s => s) ⟨["1"], ("[", "]"), "[", false⟩) ≠ 1 - 1 := by
  decide

theorem countOccurrences_singleton (ch : Char) (s : String) :
    countOccurrences (String.singleton ch) s = s.data.count ch := by
  simp [countOccurrences, String.singleton, countOccAux_singleton]

/-- C3 (amended): for a single-character delimiter `ch` that occurs in
neither the element renderings nor the open or close terminators, and that
is not the space character whenever `should_space` is set, the number of
occurrences of the delimiter in the rendered output of a slice of length
`n ≥ 1` equals `n - 1`. -/
theorem count_delim_occurrences_amended (toStr : α → String) (l : List α)
    (op cl : String) (ch : Char) (sp : Bool)
    (hne : l ≠ [])
    (helems : ∀ a ∈ l, countOccurrences (String.singleton ch) (toStr a) = 0)
    (hop : countOccurrences (String.singleton ch) op = 0)
    (hcl : countOccurrences (String.singleton ch) cl = 0)
    (hsp : sp = true → ch ≠ ' ') :
    countOccurrences (String.singleton ch)
        (output toStr ⟨l, (op, cl), String.singleton ch, sp⟩)
      = l.length - 1 := by
  simp only [countOccurrences_singleton] at helems hop hcl ⊢
  rw [output_closed]
  simp only [String.data_append, List.count_append]
  have hts : ∀ t ∈ l.map toStr, t.data.count ch = 0 := by
    intro t ht
    obtain ⟨a, ha, rfl⟩ := List.mem_map.mp ht
    exact helems a ha
  rw [sepBy_count ch _ _ hts (by simpa using hne)]
  have hsep : (String.singleton ch ++ if sp then " " else "").data.count ch = 1 := by
    cases sp with
    | false => simp [String.singleton, String.data_append]
    | true =>
      have h1 : ch ≠ ' ' := hsp rfl
      have h2 : ¬(' ' = ch) := fun hc => h1 hc.symm
      simp [String.singleton, String.data_append, List.count_cons,
        List.count_nil, h1, h2]
  rw [hsep, hop, hcl]
  simp

/-- C3 (witness for the amended theorem): slice `[1, 2]`, delimiter `';'`,
default terminators and spacing: the output `"[1; 2]"` contains the
delimiter `2 - 1 = 1` time. -/
theorem count_delim_occurrences_amended_witness :
    countOccurrences (String.singleton ';')
        (output Nat.repr ⟨[1, 2], ("[", "]"), String.singleton ';', true⟩)
      = 2 - 1 :=
  count_delim_occurrences_amended Nat.repr [1, 2] "[" "]" ';' true
    (by decide) (by decide) (by decide) (by decide) (by decide)

/-- C4: each builder operation is last-write-wins: applying it twice with
values `v₁` then `v₂` renders identically to applying it once with `v₂`. -/
theorem builder_last_write_wins (toStr : α → String) (d : SliceDisplayImpl α)
    (o1 c1 o2 c2 d1 d2 : String) (b1 b2 : Bool) :
    output toStr ((d.terminator o1 c1).terminator o2 c2)
        = output toStr (d.terminator o2 c2)
      ∧ output toStr ((d.set_delimiter d1).set_delimiter d2)
          = output toStr (d.set_delimiter d2)
      ∧ output toStr ((d.set_should_space b1).set_should_space b2)
          = output toStr (d.set_should_space b2) :=
  ⟨rfl, rfl, rfl⟩

/-- C5: each builder operation replaces exactly its own chrome field: the
borrowed slice and every other chrome field of the result coincide with
the receiver's, and the named field takes the supplied value. -/
theorem builder_frame (d : SliceDisplayImpl α) (op cl dl : String) (b : Bool) :
    ((d.terminator op cl).slice = d.slice
        ∧ (d.terminator op cl).delimiter = d.delimiter
        ∧ (d.terminator op cl).should_space = d.should_space
        ∧ (d.terminator op cl).terminators = (op, cl))
      ∧ ((d.set_delimiter dl).slice = d.slice
        ∧ (d.set_delimiter dl).terminators = d.terminators
        ∧ (d.set_delimiter dl).should_space = d.should_space
        ∧ (d.set_delimiter dl).delimiter = dl)
      ∧ ((d.set_should_space b).slice = d.slice
        ∧ (d.set_should_space b).terminators = d.terminators
        ∧ (d.set_should_space b).delimiter = d.delimiter
        ∧ (d.set_should_space b).should_space = b) :=
  ⟨⟨rfl, rfl, rfl, rfl⟩, ⟨rfl, rfl, rfl, rfl⟩, ⟨rfl, rfl, rfl, rfl⟩⟩

/-- C6: `display` returns a handle borrowing the sequence with exactly the
default chrome `("[", "]")`, `","`, `should_space = true`; rendering
`[1, 2, 3, 4, 5]` with it yields `"[1, 2, 3, 4, 5]"`. -/
theorem display_default_chrome (l : List α) :
    (display l).slice = l
      ∧ (display l).terminators = ("[", "]")
      ∧ (display l).delimiter = ","
      ∧ (display l).should_space = true
      ∧ output Nat.repr (display ([1, 2, 3, 4, 5] : List Nat))
          = "[1, 2, 3, 4, 5]" :=
  ⟨rfl, rfl, rfl, rfl, by decide⟩

/-- C7: against a sink whose `budget`-th write fails with error value `e`
(of arbitrary type), rendering performs exactly the first `budget` writes
and then returns the very error value `e`: the partial output is precisely
the concatenation of the first `budget` tokens, nothing further is
emitted, and the error is neither transformed nor swallowed; when the sink
never fails the full output is produced. -/
theorem fmt_short_circuit_error (toStr : α → String) (d : SliceDisplayImpl α)
    (e : ε) (budget : Nat) :
    fmtBudget toStr d e budget
      = if budget < (tokens toStr d).length
          then Except.error (e, joinStr ((tokens toStr d).take budget))
          else Except.ok (budget - (tokens toStr d).length, output toStr d) := by
  unfold fmtBudget
  rw [fmt_eq_runWrites, runWrites_failWrite, output_eq_joinStr]
  simp [String.empty_append]

/-- C8: `display` on an owned `Vec`, on a borrowed slice, and on a
fixed-size array holding the same elements renders identically. -/
theorem display_uniform_containers (toStr : α → String) (l : List α) :
    output toStr (display (Vec.mk l)) = output toStr (display l)
      ∧ output toStr (display (ArrayN.mk l (rfl : l.length = l.length)))
          = output toStr (display l) :=
  ⟨rfl, rfl⟩

/-- C9: empty chrome tokens are accepted by the builder operations, and a
handle configured with an empty open, close, or delimiter token emits
nothing for that token while the rest of the output is unchanged. -/
theorem empty_tokens_render_nothing (toStr : α → String) (l : List α)
    (op cl dl : String) (sp : Bool) :
    ((⟨l, (op, cl), dl, sp⟩ : SliceDisplayImpl α).terminator "" "").terminators
        = ("", "")
      ∧ ((⟨l, (op, cl), dl, sp⟩ : SliceDisplayImpl α).set_delimiter "").delimiter = ""
      ∧ output toStr ⟨l, ("", cl), dl, sp⟩
          = sepBy (dl ++ if sp then " " else "") (l.map toStr) ++ cl
      ∧ output toStr ⟨l, (op, ""), dl, sp⟩
          = op ++ sepBy (dl ++ if sp then " " else "") (l.map toStr)
      ∧ output toStr ⟨l, (op, cl), "", sp⟩
          = op ++ sepBy (if sp then " " else "") (l.map toStr) ++ cl := by
  refine ⟨rfl, rfl, ?_, ?_, ?_⟩
  · rw [output_closed]
    simp [String.empty_append]
  · rw [output_closed]
    simp [String.append_empty]
  · rw [output_closed]
    simp [String.empty_append]

/-- C10: the rendered text never depends on the formatting parameters the
formatter sink carries (fill, alignment, width, precision, flags): for any
two parameter records the same text is produced, because no write consults
them. -/
theorem output_independent_of_fmt_options (toStr : α → String)
    (d : SliceDisplayImpl α) (o1 o2 : FmtOptions) :
    outputWith toStr d o1 = outputWith toStr d o2 := by
  unfold outputWith
  rw [fmt_eq_runWrites, fmt_eq_runWrites, runWrites_formatter, runWrites_formatter]
